import Mathlib

/-!
Verification of `src/web_translator.py`: a Flask web service that translates
the `Title` column of an uploaded spreadsheet in batches of 10 rows,
reporting progress through an in-memory task registry.

The embedding models:
* `translate_text` — the retrying translation client, with the network
  abstracted as an oracle mapping each attempt number (1, 2, 3) to the
  outcome of that attempt's `requests.get` call;
* task records (Python dicts) as association lists where the most recent
  binding of a key wins, and `_safe_update` over a registry of records;
* `_run_task` — the batch worker, as the list of observable events it emits
  (registry updates, per-row translation calls, output-file saves).
  Wall-clock-dependent quantities (`eta_seconds` values and the
  `started_at`/`finished_at` timestamps) are abstracted: `eta_seconds` by a
  parameter function, timestamps by an opaque value whose presence is what
  the specification constrains.
-/

namespace WebTranslator

/-- A value stored in a task-record dict.  `Val.time` stands for a
`time.time()` timestamp, whose numeric value the embedding abstracts. -/
inductive Val where
  | s (v : String)
  | n (v : Nat)
  | b (v : Bool)
  | time
deriving DecidableEq

/-- A task record: a Python dict modelled as an association list in which
the first binding of a key (the most recently written one) wins. -/
abbrev Rec := List (String × Val)

/-- `rec.get(k)`: the current value of key `k` in a record. -/
def recLookup (rec : Rec) (k : String) : Option Val :=
  (rec.find? (fun p => p.1 == k)).map (fun p => p.2)

/-- `rec.update(kv)` (Python `dict.update`): bindings from `kv` shadow the
old ones. -/
def applyUpd (rec : Rec) (kv : Rec) : Rec := kv ++ rec

/-- Python `str.strip()`: remove leading and trailing whitespace. -/
def pyStrip (s : String) : String :=
  ⟨((s.data.dropWhile Char.isWhitespace).reverse.dropWhile Char.isWhitespace).reverse⟩

/-- Python `str.lower()` (ASCII case folding, which is all the code compares). -/
def pyLower (s : String) : String :=
  ⟨s.data.map Char.toLower⟩

/-! ## Translation client (`translate_text`, lines 15–33) -/

/-- Outcome of one `requests.get` call in `translate_text`, network and JSON
parsing abstracted: either a parsed response with an HTTP status code and the
decoded body `data` (a list whose first element is the list of segments, each
segment a list whose first element is the translated fragment), or an
exception (`requests` transport failure, timeout, or a JSON decoding error).
-/
inductive Outcome where
  | resp (code : Nat) (data : List (List (List String)))
  | exn
deriving DecidableEq

/-- The opaque Python exception value caught by the `except` clause. -/
inductive PyExn where
  | exn
deriving DecidableEq

/-- The sentinel failure string `"翻译失败"` returned when translation fails. -/
def sentinel : String := "翻译失败"

/-- Result of one call to `translate_text`: the returned string, the number
of attempts made against the endpoint (`requests.get` calls, a raising call
included), and the list of `time.sleep` durations performed, in seconds. -/
structure TransResult where
  result : String
  attempts : Nat
  sleeps : List ℚ
deriving DecidableEq

/-- The body of the `try` block for one attempt (lines 23–27), given that
attempt's outcome.  `.ok (some s)` models `return s`; `.ok none` models
falling through to the next attempt after the non-200 branch (the caller
records the `time.sleep` of line 27); `.error` models an exception reaching
the `except` clause — from `requests.get`/`r.json()` themselves, or an
`IndexError` raised while joining segments when some segment is empty. -/
def tryBody (o : Outcome) : Except PyExn (Option String) :=
  match o with
  | .exn => .error .exn
  | .resp code data =>
    if code == 200 then
      match data with
      | [] => .ok (some sentinel)
      | segs :: _ =>
        if segs = [] then .ok (some sentinel)
        else
          match segs.mapM List.head? with
          | some heads => .ok (some (String.join heads))
          | none => .error .exn
    else .ok none

/-- The backoff of lines 27 and 32: `(2 ** attempt) + 0.5` seconds. -/
def backoff (a : Nat) : ℚ := 2 ^ a + 1 / 2

/-- The `for attempt in range(1, 4)` loop of lines 21–33, recursing over the
remaining attempt numbers.  `calls` and `sleeps` accumulate the attempts made
and the sleeps performed so far.  Falling off the loop returns the sentinel
(line 33); an exception on the final attempt (`attempt == 3`) returns the
sentinel without sleeping (lines 29–31); a non-200 response sleeps
unconditionally, the final attempt included (line 27). -/
def translateLoop (oracle : Nat → Outcome) :
    List Nat → Nat → List ℚ → Except PyExn TransResult
  | [], calls, sleeps => .ok ⟨sentinel, calls, sleeps⟩
  | a :: rest, calls, sleeps =>
    match tryBody (oracle a) with
    | .ok (some s) => .ok ⟨s, calls + 1, sleeps⟩
    | .ok none => translateLoop oracle rest (calls + 1) (sleeps ++ [backoff a])
    | .error _ =>
      if a == 3 then .ok ⟨sentinel, calls + 1, sleeps⟩
      else translateLoop oracle rest (calls + 1) (sleeps ++ [backoff a])

/-- `translate_text` (lines 15–33).  The guard of line 16 returns the empty
string with no attempt for empty or whitespace-only input.  The truncation
`text = text[:5000]` of line 18 only shortens the query string sent to the
endpoint, which the oracle abstracts, so it does not appear in the model.
`List.range' 1 3 = [1, 2, 3]` is Python's `range(1, 4)`.  The result type is
`Except PyExn _` so that "never raises" is expressible: an uncaught
exception would surface as `.error`. -/
def translate_text (oracle : Nat → Outcome) (text : String) :
    Except PyExn TransResult :=
  if text = "" ∨ pyStrip text = "" then .ok ⟨"", 0, []⟩
  else translateLoop oracle (List.range' 1 3) 0 []

/-- An attempt outcome that the retry loop treats as a failure: a transport
failure / exception, or a response with a non-200 status code. -/
def failedOutcome : Outcome → Prop
  | .exn => True
  | .resp code _ => code ≠ 200

/-- A failed attempt other than the third advances the loop after a backoff
sleep, whether the failure was a non-200 response or an exception. -/
theorem translateLoop_fail_step (oracle : Nat → Outcome) (rest : List Nat)
    (a calls : Nat) (sleeps : List ℚ) (ha : a ≠ 3) (hf : failedOutcome (oracle a)) :
    translateLoop oracle (a :: rest) calls sleeps =
      translateLoop oracle rest (calls + 1) (sleeps ++ [backoff a]) := by
  cases ho : oracle a with
  | exn => simp [translateLoop, tryBody, ho, ha]
  | resp code data =>
    rw [ho] at hf
    simp only [failedOutcome] at hf
    simp [translateLoop, tryBody, ho, hf]

/-- A failed third attempt ends the loop with the sentinel; an exception
returns at once, while a non-200 response first sleeps `backoff 3` and only
then falls off the loop. -/
theorem translateLoop_fail_last (oracle : Nat → Outcome) (calls : Nat)
    (sleeps : List ℚ) (hf : failedOutcome (oracle 3)) :
    translateLoop oracle [3] calls sleeps =
      .ok ⟨sentinel, calls + 1,
        sleeps ++ (if oracle 3 = Outcome.exn then [] else [backoff 3])⟩ := by
  cases ho : oracle 3 with
  | exn => simp [translateLoop, tryBody, ho]
  | resp code data =>
    rw [ho] at hf
    simp only [failedOutcome] at hf
    simp [translateLoop, tryBody, ho, hf]

/-- The loop always returns a result, never an uncaught exception. -/
theorem translateLoop_ok (oracle : Nat → Outcome) (l : List Nat) :
    ∀ calls sleeps, ∃ r, translateLoop oracle l calls sleeps = .ok r := by
  induction l with
  | nil => exact fun calls sleeps => ⟨_, rfl⟩
  | cons a rest ih =>
    intro calls sleeps
    cases htb : tryBody (oracle a) with
    | ok o =>
      cases o with
      | some s =>
        refine ⟨⟨s, calls + 1, sleeps⟩, ?_⟩
        simp [translateLoop, htb]
      | none =>
        obtain ⟨r, hr⟩ := ih (calls + 1) (sleeps ++ [backoff a])
        exact ⟨r, by simp [translateLoop, htb, hr]⟩
    | error e =>
      by_cases ha : a = 3
      · subst ha
        refine ⟨⟨sentinel, calls + 1, sleeps⟩, ?_⟩
        simp [translateLoop, htb]
      · obtain ⟨r, hr⟩ := ih (calls + 1) (sleeps ++ [backoff a])
        exact ⟨r, by simp [translateLoop, htb, ha, hr]⟩

/-- Non-blank text enters the retry loop over attempts `[1, 2, 3]`. -/
theorem translate_text_of_not_blank (oracle : Nat → Outcome) (text : String)
    (h : pyStrip text ≠ "") :
    translate_text oracle text = translateLoop oracle [1, 2, 3] 0 [] := by
  have hne : ¬(text = "" ∨ pyStrip text = "") := by
    rintro (rfl | hblank)
    · exact h rfl
    · exact h hblank
  simp only [translate_text, if_neg hne]
  rfl

/-- C3 counterexample: against an endpoint answering HTTP 500 (a non-success
response) on every attempt, the code performs three backoff waits — one
after each failed attempt, the third included — so a wait of
`2^3 + 0.5 = 8.5` seconds does occur after the final attempt's failure,
before the sentinel is returned.  The claim predicts only two waits. -/
theorem C3_counterexample :
    translate_text (fun _ => Outcome.resp 500 []) "hello" =
        .ok ⟨sentinel, 3, [backoff 1, backoff 2, backoff 3]⟩ ∧
      backoff 3 = 17 / 2 ∧
      ([backoff 1, backoff 2, backoff 3].length = 3) := by
  refine ⟨rfl, ?_, rfl⟩
  norm_num [backoff]

/-- C3 (amended): each failed attempt numbered 1 or 2 is followed by a wait
of `2^attempt + 0.5` seconds; after the third attempt's failure the function
returns the sentinel immediately only when that failure was a transport
failure — a non-success response on the third attempt still incurs a final
`2^3 + 0.5`-second wait before the sentinel is returned. -/
theorem C3_amended_backoff (oracle : Nat → Outcome) (text : String)
    (htext : pyStrip text ≠ "")
    (hfail : ∀ a, 1 ≤ a → a ≤ 3 → failedOutcome (oracle a)) :
    translate_text oracle text =
      .ok ⟨sentinel, 3,
        [backoff 1, backoff 2] ++
          (if oracle 3 = Outcome.exn then [] else [backoff 3])⟩ := by
  rw [translate_text_of_not_blank oracle text htext]
  rw [translateLoop_fail_step oracle _ 1 _ _ (by omega) (hfail 1 (by omega) (by omega))]
  rw [translateLoop_fail_step oracle _ 2 _ _ (by omega) (hfail 2 (by omega) (by omega))]
  rw [translateLoop_fail_last oracle _ _ (hfail 3 (by omega) (by omega))]
  simp

/-- C3 amended, witnessed: an endpoint that raises on each of the three
attempts yields the sentinel after exactly the two waits `2.5 s` and
`4.5 s`, with none after the third attempt. -/
theorem C3_amended_witness :
    pyStrip "x" ≠ "" ∧
      translate_text (fun _ => Outcome.exn) "x" =
        .ok ⟨sentinel, 3, [backoff 1, backoff 2]⟩ := by
  constructor
  · decide
  · have h := C3_amended_backoff (fun _ => Outcome.exn) "x" (by decide)
      (fun a _ _ => by simp [failedOutcome])
    simpa using h

/-- C5: `translate_text` never lets an exception escape — every call returns
a result — and when every attempt against the endpoint fails (non-success
response or transport failure) on non-blank input, it makes exactly 3
attempts and returns the sentinel failure string. -/
theorem C5_never_raises_three_attempts (oracle : Nat → Outcome) (text : String) :
    (∃ r, translate_text oracle text = .ok r) ∧
      (pyStrip text ≠ "" → (∀ a, 1 ≤ a → a ≤ 3 → failedOutcome (oracle a)) →
        ∃ sleeps, translate_text oracle text = .ok ⟨sentinel, 3, sleeps⟩) := by
  constructor
  · by_cases hb : text = "" ∨ pyStrip text = ""
    · refine ⟨⟨"", 0, []⟩, ?_⟩
      simp [translate_text, hb]
    · rw [translate_text, if_neg hb]
      exact translateLoop_ok oracle _ 0 []
  · intro htext hfail
    rw [translate_text_of_not_blank oracle text htext]
    rw [translateLoop_fail_step oracle _ 1 _ _ (by omega) (hfail 1 (by omega) (by omega))]
    rw [translateLoop_fail_step oracle _ 2 _ _ (by omega) (hfail 2 (by omega) (by omega))]
    rw [translateLoop_fail_last oracle _ _ (hfail 3 (by omega) (by omega))]
    exact ⟨_, rfl⟩

/-- C5, witnessed at an always-raising endpoint and the input `"x"`. -/
theorem C5_witness :
    ∃ sleeps, translate_text (fun _ => Outcome.exn) "x" = .ok ⟨sentinel, 3, sleeps⟩ :=
  (C5_never_raises_three_attempts (fun _ => Outcome.exn) "x").2 (by decide)
    (fun a _ _ => by simp [failedOutcome])

/-- C6: empty or whitespace-only input returns the empty string with zero
attempts against the endpoint (no network call) and no waits. -/
theorem C6_blank_input (oracle : Nat → Outcome) (text : String)
    (h : pyStrip text = "") :
    translate_text oracle text = .ok ⟨"", 0, []⟩ := by
  simp [translate_text, h]

/-- C6, witnessed at `"   "` (and the endpoint is never consulted: the
oracle chosen here answers HTTP 200, yet zero attempts are recorded). -/
theorem C6_witness :
    pyStrip "   " = "" ∧
      translate_text (fun _ => Outcome.resp 200 [[["你"]]]) "   " = .ok ⟨"", 0, []⟩ :=
  ⟨by decide, C6_blank_input _ _ (by decide)⟩

/-! ## Task registry (`TASKS`, `_safe_update`, lines 10–44) -/

/-- The registry `TASKS`: task id to task record.  The `TASKS_LOCK` critical
sections make each read or write atomic; the embedding therefore treats every
registry operation as one step. -/
abbrev Registry := List (String × Rec)

/-- `_safe_update` (lines 36–40): fetch the record for `task_id` and, when
`st` is truthy (the id is present and its dict non-empty), merge `kv` into it;
otherwise do nothing.  An absent id leaves the registry unchanged. -/
def _safe_update (tasks : Registry) (task_id : String) (kv : Rec) : Registry :=
  tasks.map (fun p =>
    if p.1 = task_id ∧ p.2 ≠ [] then (p.1, applyUpd p.2 kv) else p)

/-- The initial record inserted by `start_background_task` (lines 140–144). -/
def initRecord (tmp_dir filename : String) : Rec :=
  [("status", .s "idle"), ("percent", .n 0), ("total", .n 0), ("current", .n 0),
   ("cancel_requested", .b false), ("tmp_dir", .s tmp_dir),
   ("filename", .s filename)]

/-! ## Spreadsheet model -/

/-- A worksheet: `grid[i][j]` is the cell at row `i+1`, column `j+1`
(openpyxl is 1-based); `none` is an empty cell, whose `.value` is Python
`None`.  Only textual cell values occur in the workflows the claims
describe. -/
structure Sheet where
  grid : List (List (Option String))
deriving DecidableEq

/-- `ws.max_row`. -/
def Sheet.maxRow (s : Sheet) : Nat := s.grid.length

/-- `ws.cell(row=r, column=c).value`; out-of-range cells read as `None`. -/
def Sheet.cell (s : Sheet) (r c : Nat) : Option String :=
  (((s.grid.get? (r - 1)).map (fun row => row.get? (c - 1))).join).join

/-- Python `str(v)` on a cell value: `None` renders as the string `"None"`. -/
def pyStr : Option String → String
  | none => "None"
  | some v => v

/-- Lines 63–67: scan `ws[1]` for the first column whose header satisfies
`str(cell.value).strip().lower() == "title"`, 1-based.  (The subsequent
`if not title_col_idx` test only distinguishes `None`, since a found index
is at least 1.) -/
def findTitleCol (s : Sheet) : Option Nat :=
  ((s.grid.headD []).findIdx? (fun v => pyLower (pyStrip (pyStr v)) == "title")).map
    (fun i => i + 1)

/-- Lines 78–79: the rows to translate — every `r` in `range(2, max_row+1)`
whose Title cell passes `str(value).strip()` truthiness.  (The column
insertion of lines 72–75 happens at `title_col_idx + 1` and so changes
neither column `title_col_idx` nor `max_row`; it is therefore invisible
here.) -/
def rows_to_tr (s : Sheet) (title_col_idx : Nat) : List Nat :=
  (List.range' 2 (s.maxRow - 1)).filter
    (fun r => pyStrip (pyStr (s.cell r title_col_idx)) != "")

/-! ## The batch worker (`_run_task`, lines 54–134)

The worker is modelled as the list of observable events it emits:
`.update kv` for each `_safe_update(task_id, kv)` call, `.translateRow r`
for each `translate_text` call on row `r`'s Title cell, and `.save` for each
`wb.save(output_path)`.  Quantities the embedding abstracts:

* the translated string written into the inserted column (it never
  influences control flow — by `C5`, `translate_text` cannot raise);
* each row's `eta_seconds` value, computed from wall-clock elapsed time,
  abstracted as a parameter `eta : Nat → Nat` of the row counter;
* `time.time()` timestamps, recorded as the opaque `Val.time`;
* the value of `cancel_requested` read at the start of the batch beginning
  at row-offset `bs`, abstracted as `cancelObs bs` (set externally at an
  arbitrary moment, hence a parameter);
* `output_path`, derived from the input file name, passed in as `outName`
  (its base name).

The final `finally` block (temp-dir removal, cleanup scheduling) touches no
task-record field and emits no event. -/

/-- An observable event of one `_run_task` run. -/
inductive Ev where
  | update (kv : Rec)
  | translateRow (r : Nat)
  | save
deriving DecidableEq

/-- `BATCH = 10` (line 87). -/
def BATCH : Nat := 10

/-- The progress message of line 110: `f"翻译中({done_total}/{total})"`. -/
def progressMsg (c t : Nat) : String :=
  "翻译中(" ++ toString c ++ "/" ++ toString t ++ ")"

/-- The completion message of line 121. -/
def doneMsg (t : Nat) : String :=
  "翻译完成，共处理 " ++ toString t ++ " 行"

/-- The completion update of lines 117–124. -/
def doneUpd (total : Nat) (outName : String) : Rec :=
  [("status", .s "done"), ("percent", .n 100), ("eta_seconds", .n 0),
   ("message", .s (doneMsg total)), ("download_filename", .s outName),
   ("finished_at", .time)]

/-- The cancellation update of line 93. -/
def cancelUpd : Rec :=
  [("status", .s "canceled"), ("message", .s "已取消")]

/-- The initial update of line 55. -/
def runningUpd : Rec :=
  [("status", .s "running"), ("message", .s "读取文件..."), ("percent", .n 0),
   ("started_at", .time)]

/-- The error update of line 126. -/
def errorUpd (msg : String) : Rec :=
  [("status", .s "error"), ("message", .s msg), ("finished_at", .time)]

/-- The inner loop of lines 97–111: translate each row of the batch and push
a progress update.  `done0` is `batch_start`, the rows completed before this
batch, so row `i` of the batch reports `done_total = done0 + i`. -/
def rowEvs (total : Nat) (eta : Nat → Nat) : List Nat → Nat → List Ev
  | [], _ => []
  | r :: rest, done0 =>
    .translateRow r ::
    .update [("current", .n (done0 + 1)),
             ("percent", .n ((done0 + 1) * 100 / total)),
             ("eta_seconds", .n (eta (done0 + 1))),
             ("message", .s (progressMsg (done0 + 1) total))] ::
    rowEvs total eta rest (done0 + 1)

/-- The batch loop of lines 91–115, recursing over the remaining values of
`batch_start` (`range(0, total, BATCH)`).  Each iteration first reads
`cancel_requested`; on cancellation it pushes the `canceled` update and
returns.  Otherwise it processes the batch's rows, saves the workbook, and
sleeps 2 s (timing is not an event).  Falling off the loop pushes the
completion update of lines 117–124. -/
def runBatches (rtr : List Nat) (total : Nat) (eta : Nat → Nat)
    (cancelObs : Nat → Bool) (outName : String) : List Nat → List Ev
  | [] => [.update (doneUpd total outName)]
  | bs :: rest =>
    if cancelObs bs then [.update cancelUpd]
    else
      rowEvs total eta ((rtr.drop bs).take BATCH) bs
        ++ [.save]
        ++ runBatches rtr total eta cancelObs outName rest

/-- Python's `range(0, total, 10)` as a list: `[0, 10, 20, ...]` up to but
excluding `total`. -/
def batchStarts (total : Nat) : List Nat :=
  List.range' 0 ((total + (BATCH - 1)) / BATCH) BATCH

/-- `_run_task` (lines 54–134) as its event list.  `ws` is the loaded
workbook's active sheet (`none` models `if not ws`).  The errors raised at
lines 60 and 69 are converted by the `except` clause of line 125 into the
`error` update with the raised message. -/
def runEvents (ws : Option Sheet) (eta : Nat → Nat) (cancelObs : Nat → Bool)
    (outName : String) : List Ev :=
  .update runningUpd ::
  match ws with
  | none => [.update (errorUpd "空工作表")]
  | some s =>
    match findTitleCol s with
    | none => [.update (errorUpd "找不到 Title 列")]
    | some tcol =>
      let rtr := rows_to_tr s tcol
      let total := rtr.length
      .update [("total", .n total), ("current", .n 0)] ::
      if total = 0 then
        [.update [("status", .s "done"), ("percent", .n 100),
                  ("message", .s "无需翻译")]]
      else
        runBatches rtr total eta cancelObs outName (batchStarts total)

/-- Replay an event on a task record: updates merge, other events leave the
record as is. -/
def stepEv (rec : Rec) (e : Ev) : Rec :=
  match e with
  | .update kv => applyUpd rec kv
  | _ => rec

/-- Replay a list of events on a task record. -/
def foldEvs (rec : Rec) (evs : List Ev) : Rec := evs.foldl stepEv rec

/-- The task record at the end of a `_run_task` run that starts from the
record `start_background_task` created, assuming the record stays in the
registry for the run's duration (eviction is scheduled only after the run's
`finally`). -/
def finalRecord (ws : Option Sheet) (eta : Nat → Nat) (cancelObs : Nat → Bool)
    (outName tmp_dir filename : String) : Rec :=
  foldEvs (initRecord tmp_dir filename) (runEvents ws eta cancelObs outName)

/-- The rows on which `translate_text` was invoked, in order. -/
def translatedRows (evs : List Ev) : List Nat :=
  evs.filterMap (fun e =>
    match e with
    | .translateRow r => some r
    | _ => none)

/-- The number of `wb.save` calls (writes of the output file). -/
def countSaves (evs : List Ev) : Nat :=
  evs.countP (fun e =>
    match e with
    | .save => true
    | _ => false)

/-! ## Characterising the batch loop -/

/-- The first remaining batch boundary at which `cancel_requested` reads
true — the boundary where the loop of lines 91–94 stops, if any. -/
def firstCancel (cancelObs : Nat → Bool) : List Nat → Option Nat
  | [] => none
  | bs :: rest => if cancelObs bs then some bs else firstCancel cancelObs rest

/-- A record key not among the four keys the per-row progress update
writes. -/
def nonRowKey (k : String) : Prop :=
  k ≠ "current" ∧ k ≠ "percent" ∧ k ≠ "eta_seconds" ∧ k ≠ "message"

theorem foldEvs_cons (rec : Rec) (e : Ev) (es : List Ev) :
    foldEvs rec (e :: es) = foldEvs (stepEv rec e) es := rfl

theorem foldEvs_append (rec : Rec) (l1 l2 : List Ev) :
    foldEvs rec (l1 ++ l2) = foldEvs (foldEvs rec l1) l2 :=
  List.foldl_append _ _ _ _

theorem recLookup_applyUpd (rec kv : Rec) (k : String) :
    recLookup (applyUpd rec kv) k = (recLookup kv k).or (recLookup rec k) := by
  cases h : List.find? (fun p => p.1 == k) kv <;>
    simp [recLookup, applyUpd, List.find?_append, h]

theorem recLookup_eq_none (kv : Rec) (k : String) (h : ∀ p ∈ kv, p.1 ≠ k) :
    recLookup kv k = none := by
  have : List.find? (fun p => p.1 == k) kv = none := by
    rw [List.find?_eq_none]
    intro x hx
    simpa using h x hx
  simp [recLookup, this]

/-- The per-row updates leave every non-row key untouched. -/
theorem recLookup_foldEvs_rowEvs (total : Nat) (eta : Nat → Nat) (rows : List Nat) :
    ∀ (d : Nat) (rec : Rec) (k : String), nonRowKey k →
      recLookup (foldEvs rec (rowEvs total eta rows d)) k = recLookup rec k := by
  induction rows with
  | nil => intro d rec k _; rfl
  | cons r rest ih =>
    intro d rec k hk
    obtain ⟨h1, h2, h3, h4⟩ := hk
    simp only [rowEvs, foldEvs_cons]
    rw [ih (d + 1) _ k ⟨h1, h2, h3, h4⟩]
    show recLookup (applyUpd rec _) k = _
    rw [recLookup_applyUpd]
    rw [recLookup_eq_none _ k ?_]
    · simp
    · intro p hp
      simp only [List.mem_cons, List.not_mem_nil, or_false] at hp
      rcases hp with rfl | rfl | rfl | rfl
      · exact Ne.symm h1
      · exact Ne.symm h2
      · exact Ne.symm h3
      · exact Ne.symm h4

/-- When no boundary reads the cancel flag, the batch loop ends in the
completion update; every non-row key reads from it, falling back to the
record the loop started from (in particular `total` is preserved). -/
theorem runBatches_lookup_complete (rtr : List Nat) (total : Nat)
    (eta : Nat → Nat) (cobs : Nat → Bool) (outName : String) :
    ∀ (starts : List Nat) (rec : Rec) (k : String), nonRowKey k →
      firstCancel cobs starts = none →
      recLookup (foldEvs rec (runBatches rtr total eta cobs outName starts)) k =
        (recLookup (doneUpd total outName) k).or (recLookup rec k) := by
  intro starts
  induction starts with
  | nil =>
    intro rec k _ _
    exact recLookup_applyUpd rec (doneUpd total outName) k
  | cons bs rest ih =>
    intro rec k hk hnc
    cases hc : cobs bs with
    | true => simp [firstCancel, hc] at hnc
    | false =>
      have hnc' : firstCancel cobs rest = none := by
        simpa [firstCancel, hc] using hnc
      have e1 : runBatches rtr total eta cobs outName (bs :: rest) =
          rowEvs total eta ((rtr.drop bs).take BATCH) bs ++
            ([Ev.save] ++ runBatches rtr total eta cobs outName rest) := by
        simp [runBatches, hc]
      rw [e1, foldEvs_append, foldEvs_append]
      rw [ih _ k hk hnc']
      have e2 : foldEvs (foldEvs rec (rowEvs total eta ((rtr.drop bs).take BATCH) bs))
          [Ev.save] = foldEvs rec (rowEvs total eta ((rtr.drop bs).take BATCH) bs) := rfl
      rw [e2, recLookup_foldEvs_rowEvs total eta _ bs rec k hk]

/-- When some boundary reads the cancel flag, the batch loop ends in the
cancellation update; every non-row key reads from it, falling back to the
record the loop started from (in particular `download_filename` and
`finished_at` are never written). -/
theorem runBatches_lookup_cancel (rtr : List Nat) (total : Nat)
    (eta : Nat → Nat) (cobs : Nat → Bool) (outName : String) :
    ∀ (starts : List Nat) (b₀ : Nat) (rec : Rec) (k : String), nonRowKey k →
      firstCancel cobs starts = some b₀ →
      recLookup (foldEvs rec (runBatches rtr total eta cobs outName starts)) k =
        (recLookup cancelUpd k).or (recLookup rec k) := by
  intro starts
  induction starts with
  | nil => intro b₀ rec k _ h; simp [firstCancel] at h
  | cons bs rest ih =>
    intro b₀ rec k hk hfc
    cases hc : cobs bs with
    | true =>
      have e1 : runBatches rtr total eta cobs outName (bs :: rest) =
          [.update cancelUpd] := by simp [runBatches, hc]
      rw [e1]
      exact recLookup_applyUpd rec cancelUpd k
    | false =>
      have hfc' : firstCancel cobs rest = some b₀ := by
        simpa [firstCancel, hc] using hfc
      have e1 : runBatches rtr total eta cobs outName (bs :: rest) =
          rowEvs total eta ((rtr.drop bs).take BATCH) bs ++
            ([Ev.save] ++ runBatches rtr total eta cobs outName rest) := by
        simp [runBatches, hc]
      rw [e1, foldEvs_append, foldEvs_append]
      rw [ih _ _ k hk hfc']
      have e2 : foldEvs (foldEvs rec (rowEvs total eta ((rtr.drop bs).take BATCH) bs))
          [Ev.save] = foldEvs rec (rowEvs total eta ((rtr.drop bs).take BATCH) bs) := rfl
      rw [e2, recLookup_foldEvs_rowEvs total eta _ bs rec k hk]

/-- The inner row loop calls `translate_text` on exactly its rows, in
order. -/
theorem translatedRows_rowEvs (total : Nat) (eta : Nat → Nat) :
    ∀ (rows : List Nat) (d : Nat), translatedRows (rowEvs total eta rows d) = rows := by
  intro rows
  induction rows with
  | nil => intro d; rfl
  | cons r rest ih =>
    intro d
    simp only [rowEvs, translatedRows, List.filterMap_cons]
    exact congrArg (r :: ·) (ih (d + 1))

/-- The inner row loop writes no output file. -/
theorem countSaves_rowEvs (total : Nat) (eta : Nat → Nat) :
    ∀ (rows : List Nat) (d : Nat), countSaves (rowEvs total eta rows d) = 0 := by
  intro rows
  induction rows with
  | nil => intro d; rfl
  | cons r rest ih =>
    intro d
    simp only [rowEvs, countSaves, List.countP_cons]
    simpa [countSaves] using ih (d + 1)

theorem translatedRows_append (l1 l2 : List Ev) :
    translatedRows (l1 ++ l2) = translatedRows l1 ++ translatedRows l2 := by
  simp [translatedRows, List.filterMap_append]

theorem countSaves_append (l1 l2 : List Ev) :
    countSaves (l1 ++ l2) = countSaves l1 + countSaves l2 := by
  simp [countSaves, List.countP_append]

theorem firstCancel_mem (cobs : Nat → Bool) :
    ∀ (l : List Nat) (b₀ : Nat), firstCancel cobs l = some b₀ →
      b₀ ∈ l ∧ cobs b₀ = true := by
  intro l
  induction l with
  | nil => intro b₀ h; simp [firstCancel] at h
  | cons bs rest ih =>
    intro b₀ h
    cases hc : cobs bs with
    | true =>
      rw [firstCancel, if_pos hc, Option.some_inj] at h
      subst h
      exact ⟨List.mem_cons_self _ _, hc⟩
    | false =>
      rw [firstCancel, if_neg (by simp [hc])] at h
      obtain ⟨hm, hcb⟩ := ih b₀ h
      exact ⟨List.mem_cons_of_mem _ hm, hcb⟩

/-- Every boundary the loop visited before the one where it observed the
flag read false. -/
theorem firstCancel_range'_earlier (cobs : Nat → Bool) :
    ∀ (k bs b₀ : Nat), firstCancel cobs (List.range' bs k BATCH) = some b₀ →
      ∀ x ∈ List.range' bs k BATCH, x < b₀ → cobs x = false := by
  intro k
  induction k with
  | zero => intro bs b₀ h; simp [firstCancel] at h
  | succ k ih =>
    intro bs b₀ h x hx hlt
    rw [List.range'_succ] at h hx
    cases hc : cobs bs with
    | true =>
      rw [firstCancel, if_pos hc, Option.some_inj] at h
      subst h
      rw [List.mem_cons] at hx
      rcases hx with rfl | hx
      · omega
      · obtain ⟨i, _, rfl⟩ := List.mem_range'.1 hx
        omega
    | false =>
      rw [firstCancel, if_neg (by simp [hc])] at h
      rw [List.mem_cons] at hx
      rcases hx with rfl | hx
      · exact hc
      · exact ih (bs + BATCH) b₀ h x hx hlt

/-- Cancelled run of the batch loop over boundaries `bs, bs+10, …`: the
translated rows are exactly the first `b₀ - bs` remaining rows, one save per
completed batch, and the cancellation update is the final event — nothing is
translated or saved after it. -/
theorem runBatches_cancel_events (rtr : List Nat) (total : Nat)
    (eta : Nat → Nat) (cobs : Nat → Bool) (outName : String) :
    ∀ (k bs b₀ : Nat), firstCancel cobs (List.range' bs k BATCH) = some b₀ →
      bs ≤ b₀ ∧
      translatedRows (runBatches rtr total eta cobs outName (List.range' bs k BATCH)) =
        (rtr.drop bs).take (b₀ - bs) ∧
      countSaves (runBatches rtr total eta cobs outName (List.range' bs k BATCH)) =
        (b₀ - bs) / BATCH ∧
      (runBatches rtr total eta cobs outName (List.range' bs k BATCH)).getLast? =
        some (.update cancelUpd) := by
  intro k
  induction k with
  | zero => intro bs b₀ h; simp [firstCancel] at h
  | succ k ih =>
    intro bs b₀ h
    rw [List.range'_succ] at h ⊢
    cases hc : cobs bs with
    | true =>
      rw [firstCancel, if_pos hc, Option.some_inj] at h
      subst h
      refine ⟨le_refl _, ?_, ?_, ?_⟩
      · simp [runBatches, hc, translatedRows]
      · simp [runBatches, hc, countSaves]
      · simp [runBatches, hc]
    | false =>
      rw [firstCancel, if_neg (by simp [hc])] at h
      obtain ⟨hle, htr, hsv, hlast⟩ := ih (bs + BATCH) b₀ h
      have e1 : runBatches rtr total eta cobs outName (bs :: List.range' (bs + BATCH) k BATCH) =
          rowEvs total eta ((rtr.drop bs).take BATCH) bs ++
            ([Ev.save] ++ runBatches rtr total eta cobs outName
              (List.range' (bs + BATCH) k BATCH)) := by
        simp [runBatches, hc]
      refine ⟨by omega, ?_, ?_, ?_⟩
      · rw [e1, translatedRows_append, translatedRows_append,
          translatedRows_rowEvs total eta, htr]
        show (rtr.drop bs).take BATCH ++ ([] ++ _) = _
        rw [List.nil_append]
        have harith : b₀ - bs = BATCH + (b₀ - (bs + BATCH)) := by omega
        rw [harith, List.take_add, List.drop_drop]
      · rw [e1, countSaves_append, countSaves_append,
          countSaves_rowEvs total eta, hsv]
        show 0 + (1 + (b₀ - (bs + BATCH)) / BATCH) = (b₀ - bs) / BATCH
        have harith : b₀ - bs = (b₀ - (bs + BATCH)) + BATCH := by omega
        rw [harith, Nat.add_div_right _ (by norm_num [BATCH])]
        omega
      · rw [e1, List.getLast?_append, List.getLast?_append, hlast]
        rfl

/-- Completed run of the batch loop: when the visited boundaries cover all
of `rtr` and no boundary observes the flag, the translated rows are exactly
the remaining rows and the completion update is the final event. -/
theorem runBatches_complete_events (rtr : List Nat) (total : Nat)
    (eta : Nat → Nat) (cobs : Nat → Bool) (outName : String)
    (hlen : rtr.length = total) :
    ∀ (k bs : Nat), firstCancel cobs (List.range' bs k BATCH) = none →
      total ≤ bs + BATCH * k →
      translatedRows (runBatches rtr total eta cobs outName (List.range' bs k BATCH)) =
        rtr.drop bs ∧
      (runBatches rtr total eta cobs outName (List.range' bs k BATCH)).getLast? =
        some (.update (doneUpd total outName)) := by
  intro k
  induction k with
  | zero =>
    intro bs _ hcov
    refine ⟨?_, rfl⟩
    have : rtr.drop bs = [] := List.drop_eq_nil_of_le (by omega)
    simp [runBatches, translatedRows, this]
  | succ k ih =>
    intro bs h hcov
    rw [List.range'_succ] at h ⊢
    cases hc : cobs bs with
    | true => rw [firstCancel, if_pos hc] at h; exact absurd h (by simp)
    | false =>
      rw [firstCancel, if_neg (by simp [hc])] at h
      rw [Nat.mul_succ] at hcov
      obtain ⟨htr, hlast⟩ := ih (bs + BATCH) h (by omega)
      have e1 : runBatches rtr total eta cobs outName (bs :: List.range' (bs + BATCH) k BATCH) =
          rowEvs total eta ((rtr.drop bs).take BATCH) bs ++
            ([Ev.save] ++ runBatches rtr total eta cobs outName
              (List.range' (bs + BATCH) k BATCH)) := by
        simp [runBatches, hc]
      constructor
      · rw [e1, translatedRows_append, translatedRows_append,
          translatedRows_rowEvs total eta, htr]
        show (rtr.drop bs).take BATCH ++ ([] ++ _) = _
        rw [List.nil_append]
        rw [← List.drop_drop, List.take_append_drop]
      · rw [e1, List.getLast?_append, List.getLast?_append, hlast]
        rfl

/-- Exhaustive characterisation of the record a `_run_task` run leaves
behind: an `error` exit (load or header failure, before `total` is set), a
`done` exit through the zero-translatable-rows shortcut, a `canceled` exit,
or a `done` exit through the completion update.  The four cases fix the
presence and values of `status`, `download_filename`, `finished_at` and
`total`. -/
theorem finalRecord_cases (ws : Option Sheet) (eta : Nat → Nat)
    (cobs : Nat → Bool) (outName tmp_dir filename : String) (F : Rec)
    (hF : F = finalRecord ws eta cobs outName tmp_dir filename) :
    (recLookup F "status" = some (.s "error") ∧
      recLookup F "download_filename" = none ∧
      recLookup F "finished_at" = some .time ∧
      recLookup F "total" = some (.n 0)) ∨
    (recLookup F "status" = some (.s "done") ∧
      recLookup F "download_filename" = none ∧
      recLookup F "finished_at" = none ∧
      recLookup F "total" = some (.n 0)) ∨
    (recLookup F "status" = some (.s "canceled") ∧
      recLookup F "download_filename" = none ∧
      recLookup F "finished_at" = none ∧
      ∃ n, recLookup F "total" = some (.n (n + 1))) ∨
    (recLookup F "status" = some (.s "done") ∧
      recLookup F "download_filename" = some (.s outName) ∧
      recLookup F "finished_at" = some .time ∧
      ∃ n, recLookup F "total" = some (.n (n + 1))) := by
  subst hF
  cases ws with
  | none =>
    left
    refine ⟨?_, ?_, ?_, ?_⟩ <;>
      simp [finalRecord, runEvents, foldEvs, stepEv, applyUpd, recLookup,
        initRecord, runningUpd, errorUpd, List.find?]
  | some s =>
    cases htc : findTitleCol s with
    | none =>
      left
      refine ⟨?_, ?_, ?_, ?_⟩ <;>
        simp [finalRecord, runEvents, htc, foldEvs, stepEv, applyUpd, recLookup,
          initRecord, runningUpd, errorUpd, List.find?]
    | some tcol =>
      by_cases h0 : (rows_to_tr s tcol).length = 0
      · right; left
        refine ⟨?_, ?_, ?_, ?_⟩ <;>
          simp [finalRecord, runEvents, htc, h0, foldEvs, stepEv, applyUpd,
            recLookup, initRecord, runningUpd, List.find?]
      · have eF : finalRecord (some s) eta cobs outName tmp_dir filename =
            foldEvs (applyUpd (applyUpd (initRecord tmp_dir filename) runningUpd)
                [("total", Val.n (rows_to_tr s tcol).length), ("current", Val.n 0)])
              (runBatches (rows_to_tr s tcol) (rows_to_tr s tcol).length eta cobs
                outName (batchStarts (rows_to_tr s tcol).length)) := by
          simp [finalRecord, runEvents, htc, h0, foldEvs_cons, stepEv]
        obtain ⟨n, hn⟩ := Nat.exists_eq_succ_of_ne_zero h0
        cases hfc : firstCancel cobs (batchStarts (rows_to_tr s tcol).length) with
        | some b₀ =>
          right; right; left
          rw [eF]
          refine ⟨?_, ?_, ?_, ⟨n, ?_⟩⟩ <;>
            rw [runBatches_lookup_cancel _ _ _ _ _ _ _ _ _ (by simp [nonRowKey]) hfc] <;>
            simp [cancelUpd, recLookup, applyUpd, initRecord, runningUpd,
              List.find?, hn]
        | none =>
          right; right; right
          rw [eF]
          refine ⟨?_, ?_, ?_, ⟨n, ?_⟩⟩ <;>
            rw [runBatches_lookup_complete _ _ _ _ _ _ _ _ (by simp [nonRowKey]) hfc] <;>
            simp [doneUpd, recLookup, applyUpd, initRecord, runningUpd,
              List.find?, hn]

/-- C1 (amended): `download_filename` is present exactly when the task
completed the whole translation loop — `status == done` *and* the recorded
`total` is non-zero.  A task that reaches `done` through the
zero-translatable-rows shortcut (line 83) has no `download_filename`, so
"present if and only if `status == done`" fails in that case; presence still
implies `status == done`. -/
theorem C1_amended_download_filename (ws : Option Sheet) (eta : Nat → Nat)
    (cobs : Nat → Bool) (outName tmp_dir filename : String) :
    (recLookup (finalRecord ws eta cobs outName tmp_dir filename)
        "download_filename").isSome ↔
      (recLookup (finalRecord ws eta cobs outName tmp_dir filename) "status" =
          some (.s "done") ∧
        recLookup (finalRecord ws eta cobs outName tmp_dir filename) "total" ≠
          some (.n 0)) := by
  rcases finalRecord_cases ws eta cobs outName tmp_dir filename _ rfl with
    ⟨hs, hd, _, ht⟩ | ⟨hs, hd, _, ht⟩ | ⟨hs, hd, _, n, ht⟩ | ⟨hs, hd, _, n, ht⟩ <;>
    rw [hs, hd, ht] <;> simp

/-- C1 counterexample: a sheet whose only row is the header reaches
`status == done` through the zero-translatable-rows shortcut while
`download_filename` is absent, refuting the "if and only if" at this
input. -/
theorem C1_counterexample :
    recLookup (finalRecord (some ⟨[[some "Title"]]⟩) (fun _ => 0) (fun _ => false)
        "out.xlsx" "td" "fn") "status" = some (.s "done") ∧
      recLookup (finalRecord (some ⟨[[some "Title"]]⟩) (fun _ => 0) (fun _ => false)
        "out.xlsx" "td" "fn") "download_filename" = none :=
  ⟨rfl, rfl⟩

/-- C10: `finished_at` is present exactly on the `error` exit and on the
normal-completion `done` exit (recorded `total` non-zero); a `canceled` task
and a task that is `done` via the zero-translatable-rows shortcut never have
it. -/
theorem C10_finished_at (ws : Option Sheet) (eta : Nat → Nat)
    (cobs : Nat → Bool) (outName tmp_dir filename : String) :
    (recLookup (finalRecord ws eta cobs outName tmp_dir filename)
        "finished_at").isSome ↔
      (recLookup (finalRecord ws eta cobs outName tmp_dir filename) "status" =
          some (.s "error") ∨
        (recLookup (finalRecord ws eta cobs outName tmp_dir filename) "status" =
            some (.s "done") ∧
          recLookup (finalRecord ws eta cobs outName tmp_dir filename) "total" ≠
            some (.n 0))) := by
  rcases finalRecord_cases ws eta cobs outName tmp_dir filename _ rfl with
    ⟨hs, _, hf, ht⟩ | ⟨hs, _, hf, ht⟩ | ⟨hs, _, hf, n, ht⟩ | ⟨hs, _, hf, n, ht⟩ <;>
    rw [hs, hf, ht] <;> simp

/-- C7: a run whose sheet has a Title column but no translatable rows ends
`done` at 100% with the explanatory message, translates nothing, and writes
no output file. -/
theorem C7_zero_rows_done (s : Sheet) (eta : Nat → Nat) (cobs : Nat → Bool)
    (outName tmp_dir filename : String) (tcol : Nat)
    (htc : findTitleCol s = some tcol) (hz : rows_to_tr s tcol = []) :
    recLookup (finalRecord (some s) eta cobs outName tmp_dir filename) "status" =
        some (.s "done") ∧
      recLookup (finalRecord (some s) eta cobs outName tmp_dir filename) "percent" =
        some (.n 100) ∧
      recLookup (finalRecord (some s) eta cobs outName tmp_dir filename) "message" =
        some (.s "无需翻译") ∧
      translatedRows (runEvents (some s) eta cobs outName) = [] ∧
      countSaves (runEvents (some s) eta cobs outName) = 0 := by
  refine ⟨?_, ?_, ?_, ?_, ?_⟩ <;>
    simp [finalRecord, runEvents, htc, hz, foldEvs, stepEv, applyUpd, recLookup,
      initRecord, runningUpd, List.find?, translatedRows, countSaves]

/-- C7, witnessed on a sheet whose only row is the header. -/
theorem C7_witness :
    rows_to_tr ⟨[[some "Title"]]⟩ 1 = [] ∧
      recLookup (finalRecord (some ⟨[[some "Title"]]⟩) (fun _ => 0) (fun _ => false)
          "o" "t" "f") "percent" = some (.n 100) ∧
      countSaves (runEvents (some ⟨[[some "Title"]]⟩) (fun _ => 0) (fun _ => false)
          "o") = 0 := by
  have h := C7_zero_rows_done ⟨[[some "Title"]]⟩ (fun _ => 0) (fun _ => false)
    "o" "t" "f" 1 rfl rfl
  exact ⟨rfl, h.2.1, h.2.2.2.2⟩

/-- The count claim C2 describes, written from the claim's words (for
comparison with the code's `rows_to_tr`): rows 2 through `max_row` whose
Title cell holds non-empty text after trimming, where an absent/`None` cell
counts as empty and is excluded. -/
def claimedTranslatableCount (s : Sheet) (tcol : Nat) : Nat :=
  ((List.range' 2 (s.maxRow - 1)).filter (fun r =>
    match s.cell r tcol with
    | some t => pyStrip t != ""
    | none => false)).length

/-- C2 counterexample: a sheet whose single data row has an empty (`None`)
Title cell.  The claim says such a row is excluded from `total` and not
translated; the code stores `total = 1` (because `str(None)` is the
non-blank string `"None"`) and translates row 2. -/
theorem C2_counterexample :
    recLookup (finalRecord (some ⟨[[some "Title"], [none]]⟩) (fun _ => 0)
        (fun _ => false) "o" "t" "f") "total" = some (.n 1) ∧
      claimedTranslatableCount ⟨[[some "Title"], [none]]⟩ 1 = 0 ∧
      translatedRows (runEvents (some ⟨[[some "Title"], [none]]⟩) (fun _ => 0)
        (fun _ => false) "o") = [2] :=
  ⟨rfl, rfl, rfl⟩

/-- C2 (amended): `total` counts the row indices from 2 through `max_row`
whose Title cell passes Python's `str(value).strip()` truthiness — so a
`None` (absent) cell, which stringifies to `"None"`, is counted and
translated; only cells holding whitespace-only text are excluded.  On an
uncancelled run exactly those rows are translated, in order. -/
theorem C2_amended_total_rows (s : Sheet) (eta : Nat → Nat) (cobs : Nat → Bool)
    (outName tmp_dir filename : String) (tcol : Nat)
    (htc : findTitleCol s = some tcol)
    (hnc : firstCancel cobs (batchStarts (rows_to_tr s tcol).length) = none) :
    recLookup (finalRecord (some s) eta cobs outName tmp_dir filename) "total" =
        some (.n ((List.range' 2 (s.maxRow - 1)).countP
          (fun r => pyStrip (pyStr (s.cell r tcol)) != ""))) ∧
      translatedRows (runEvents (some s) eta cobs outName) = rows_to_tr s tcol ∧
      ∀ r, r ∈ rows_to_tr s tcol ↔
        (2 ≤ r ∧ r ≤ s.maxRow ∧ pyStrip (pyStr (s.cell r tcol)) ≠ "") := by
  have hcount : (rows_to_tr s tcol).length =
      (List.range' 2 (s.maxRow - 1)).countP
        (fun r => pyStrip (pyStr (s.cell r tcol)) != "") := by
    rw [rows_to_tr, List.countP_eq_length_filter]
  have hmem : ∀ r, r ∈ rows_to_tr s tcol ↔
      (2 ≤ r ∧ r ≤ s.maxRow ∧ pyStrip (pyStr (s.cell r tcol)) ≠ "") := by
    intro r
    rw [rows_to_tr, List.mem_filter, List.mem_range', bne_iff_ne, ne_eq]
    constructor
    · rintro ⟨⟨i, hi, rfl⟩, hp⟩
      refine ⟨by omega, by omega, hp⟩
    · rintro ⟨h2, hmax, hp⟩
      exact ⟨⟨r - 2, by omega, by omega⟩, hp⟩
  by_cases h0 : (rows_to_tr s tcol).length = 0
  · have hz : rows_to_tr s tcol = [] := List.length_eq_zero.1 h0
    refine ⟨?_, ?_, hmem⟩
    · rw [← hcount, h0]
      simp [finalRecord, runEvents, htc, hz, foldEvs, stepEv, applyUpd,
        recLookup, initRecord, runningUpd, List.find?]
    · rw [hz]
      simp [runEvents, htc, hz, translatedRows]
  · have eE : runEvents (some s) eta cobs outName =
        [.update runningUpd,
         .update [("total", Val.n (rows_to_tr s tcol).length), ("current", Val.n 0)]] ++
          runBatches (rows_to_tr s tcol) (rows_to_tr s tcol).length eta cobs
            outName (batchStarts (rows_to_tr s tcol).length) := by
      simp [runEvents, htc, h0]
    have eF : finalRecord (some s) eta cobs outName tmp_dir filename =
        foldEvs (applyUpd (applyUpd (initRecord tmp_dir filename) runningUpd)
            [("total", Val.n (rows_to_tr s tcol).length), ("current", Val.n 0)])
          (runBatches (rows_to_tr s tcol) (rows_to_tr s tcol).length eta cobs
            outName (batchStarts (rows_to_tr s tcol).length)) := by
      simp [finalRecord, runEvents, htc, h0, foldEvs_cons, stepEv]
    refine ⟨?_, ?_, hmem⟩
    · rw [eF,
        runBatches_lookup_complete _ _ _ _ _ _ _ _ (by simp [nonRowKey]) hnc,
        ← hcount]
      simp [doneUpd, recLookup, applyUpd, initRecord, runningUpd, List.find?]
    · have hcov : (rows_to_tr s tcol).length ≤
          0 + BATCH * (((rows_to_tr s tcol).length + (BATCH - 1)) / BATCH) := by
        simp only [BATCH]
        omega
      obtain ⟨htr, _⟩ := runBatches_complete_events (rows_to_tr s tcol)
        (rows_to_tr s tcol).length eta cobs outName rfl
        (((rows_to_tr s tcol).length + (BATCH - 1)) / BATCH) 0 hnc hcov
      rw [eE, translatedRows_append]
      show [] ++ _ = _
      rw [List.nil_append]
      rw [show batchStarts (rows_to_tr s tcol).length =
        List.range' 0 (((rows_to_tr s tcol).length + (BATCH - 1)) / BATCH) BATCH
        from rfl] at hnc ⊢
      rw [htr, List.drop_zero]

/-- C2 amended, witnessed: a sheet with one non-blank data row and one
whitespace-only data row records `total = 1` and translates exactly row 2. -/
theorem C2_amended_witness :
    findTitleCol ⟨[[some "Title"], [some "a"], [some " "]]⟩ = some 1 ∧
      recLookup (finalRecord (some ⟨[[some "Title"], [some "a"], [some " "]]⟩)
        (fun _ => 0) (fun _ => false) "o" "t" "f") "total" = some (.n 1) ∧
      translatedRows (runEvents (some ⟨[[some "Title"], [some "a"], [some " "]]⟩)
        (fun _ => 0) (fun _ => false) "o") = [2] := by
  have h := C2_amended_total_rows ⟨[[some "Title"], [some "a"], [some " "]]⟩
    (fun _ => 0) (fun _ => false) "o" "t" "f" 1 rfl rfl
  refine ⟨rfl, ?_, ?_⟩
  · rw [h.1]; rfl
  · rw [h.2.1]; rfl

/-- C4: `cancel_requested` is read at the start of every batch (line 92);
when boundary `b₀` is the first to read it set (all earlier boundaries read
it unset), the task ends `canceled`, exactly the `b₀` rows of the preceding
(full) batches were translated — `b₀ / 10` complete batches, so at most one
batch's worth of rows beyond the flag becoming set — the output file was
saved once per completed batch, and the cancellation update is the run's
final event: nothing is translated or written afterwards. -/
theorem C4_cancel_stops_batches (s : Sheet) (eta : Nat → Nat)
    (cobs : Nat → Bool) (outName tmp_dir filename : String) (tcol b₀ : Nat)
    (htc : findTitleCol s = some tcol)
    (hfc : firstCancel cobs (batchStarts (rows_to_tr s tcol).length) = some b₀) :
    recLookup (finalRecord (some s) eta cobs outName tmp_dir filename) "status" =
        some (.s "canceled") ∧
      cobs b₀ = true ∧
      b₀ < (rows_to_tr s tcol).length ∧
      (∀ x ∈ batchStarts (rows_to_tr s tcol).length, x < b₀ → cobs x = false) ∧
      translatedRows (runEvents (some s) eta cobs outName) =
        (rows_to_tr s tcol).take b₀ ∧
      countSaves (runEvents (some s) eta cobs outName) = b₀ / BATCH ∧
      (runEvents (some s) eta cobs outName).getLast? =
        some (.update cancelUpd) := by
  have h0 : (rows_to_tr s tcol).length ≠ 0 := by
    intro h
    rw [h] at hfc
    exact absurd hfc (by simp [batchStarts, BATCH, firstCancel, List.range'])
  have ebs : batchStarts (rows_to_tr s tcol).length =
      List.range' 0 (((rows_to_tr s tcol).length + (BATCH - 1)) / BATCH) BATCH := rfl
  have eE : runEvents (some s) eta cobs outName =
      [.update runningUpd,
       .update [("total", Val.n (rows_to_tr s tcol).length), ("current", Val.n 0)]] ++
        runBatches (rows_to_tr s tcol) (rows_to_tr s tcol).length eta cobs
          outName (batchStarts (rows_to_tr s tcol).length) := by
    simp [runEvents, htc, h0]
  have eF : finalRecord (some s) eta cobs outName tmp_dir filename =
      foldEvs (applyUpd (applyUpd (initRecord tmp_dir filename) runningUpd)
          [("total", Val.n (rows_to_tr s tcol).length), ("current", Val.n 0)])
        (runBatches (rows_to_tr s tcol) (rows_to_tr s tcol).length eta cobs
          outName (batchStarts (rows_to_tr s tcol).length)) := by
    simp [finalRecord, runEvents, htc, h0, foldEvs_cons, stepEv]
  obtain ⟨hmem, hcb⟩ := firstCancel_mem cobs _ _ hfc
  have hblt : b₀ < (rows_to_tr s tcol).length := by
    rw [ebs] at hmem
    obtain ⟨i, hi, rfl⟩ := List.mem_range'.1 hmem
    simp only [BATCH] at hi ⊢
    omega
  obtain ⟨_, htr, hsv, hlast⟩ :=
    runBatches_cancel_events (rows_to_tr s tcol) (rows_to_tr s tcol).length
      eta cobs outName (((rows_to_tr s tcol).length + (BATCH - 1)) / BATCH) 0 b₀
      (ebs ▸ hfc)
  simp only [Nat.sub_zero, List.drop_zero] at htr hsv
  refine ⟨?_, hcb, hblt, ?_, ?_, ?_, ?_⟩
  · rw [eF, runBatches_lookup_cancel _ _ _ _ _ _ _ _ _ (by simp [nonRowKey]) hfc]
    rfl
  · intro x hx hlt
    rw [ebs] at hx
    exact firstCancel_range'_earlier cobs _ 0 b₀ (ebs ▸ hfc) x hx hlt
  · rw [eE, translatedRows_append]
    show [] ++ _ = _
    rw [List.nil_append, ebs, htr]
  · rw [eE, countSaves_append, ebs, hsv]
    show 0 + b₀ / BATCH = b₀ / BATCH
    rw [Nat.zero_add]
  · rw [eE, List.getLast?_append, ebs, hlast]
    rfl

/-- C4, witnessed: twelve translatable rows, the flag set while the first
batch runs (read as set from boundary 10 onwards): the run cancels after
translating exactly the first batch's rows 2–11 and saving once. -/
theorem C4_witness :
    firstCancel (fun bs => decide (10 ≤ bs))
        (batchStarts (rows_to_tr ⟨[some "Title"] :: List.replicate 12 [some "r"]⟩ 1).length) =
      some 10 ∧
      recLookup (finalRecord (some ⟨[some "Title"] :: List.replicate 12 [some "r"]⟩)
          (fun _ => 0) (fun bs => decide (10 ≤ bs)) "o" "t" "f") "status" =
        some (.s "canceled") ∧
      translatedRows (runEvents (some ⟨[some "Title"] :: List.replicate 12 [some "r"]⟩)
          (fun _ => 0) (fun bs => decide (10 ≤ bs)) "o") =
        [2, 3, 4, 5, 6, 7, 8, 9, 10, 11] ∧
      countSaves (runEvents (some ⟨[some "Title"] :: List.replicate 12 [some "r"]⟩)
          (fun _ => 0) (fun bs => decide (10 ≤ bs)) "o") = 1 := by
  have h := C4_cancel_stops_batches ⟨[some "Title"] :: List.replicate 12 [some "r"]⟩
    (fun _ => 0) (fun bs => decide (10 ≤ bs)) "o" "t" "f" 1 10 rfl rfl
  refine ⟨rfl, h.1, ?_, ?_⟩
  · rw [h.2.2.2.2.1]; rfl
  · rw [h.2.2.2.2.2.1]; rfl

/-- C9: `_safe_update` is a total function (it cannot raise); on an id
absent from the registry it is a no-op and leaves the registry unchanged,
and on a present (non-empty) record it merges the given fields into that
record, with the given fields shadowing existing ones key by key. -/
theorem C9_safe_update_merge_or_noop (tasks : Registry) (task_id : String)
    (kv : Rec) :
    ((∀ p ∈ tasks, p.1 ≠ task_id) → _safe_update tasks task_id kv = tasks) ∧
      (∀ rec : Rec, (task_id, rec) ∈ tasks → rec ≠ [] →
        (task_id, applyUpd rec kv) ∈ _safe_update tasks task_id kv) ∧
      (∀ (rec : Rec) (k : String),
        recLookup (applyUpd rec kv) k = (recLookup kv k).or (recLookup rec k)) := by
  refine ⟨?_, ?_, fun rec k => recLookup_applyUpd rec kv k⟩
  · intro h
    have hfix : ∀ p ∈ tasks,
        (if p.1 = task_id ∧ p.2 ≠ [] then (p.1, applyUpd p.2 kv) else p) = p := by
      intro p hp
      rw [if_neg]
      intro hcon
      exact h p hp hcon.1
    calc tasks.map (fun p => if p.1 = task_id ∧ p.2 ≠ [] then (p.1, applyUpd p.2 kv) else p)
        = tasks.map id := List.map_congr_left hfix
      _ = tasks := List.map_id tasks
  · intro rec hmem hne
    have himg : (fun p => if p.1 = task_id ∧ p.2 ≠ [] then (p.1, applyUpd p.2 kv) else p)
        (task_id, rec) = (task_id, applyUpd rec kv) := by
      show (if (task_id, rec).1 = task_id ∧ (task_id, rec).2 ≠ [] then _ else _) = _
      rw [if_pos ⟨rfl, hne⟩]
    exact himg ▸ List.mem_map_of_mem _ hmem

/-- C9, witnessed: updating an absent id `"b"` leaves the registry intact;
updating the present id `"a"` merges the fields into its record. -/
theorem C9_witness :
    _safe_update [("a", [("status", Val.s "idle")])] "b" [("percent", Val.n 5)] =
        [("a", [("status", Val.s "idle")])] ∧
      ("a", applyUpd [("status", Val.s "idle")] [("percent", Val.n 5)]) ∈
        _safe_update [("a", [("status", Val.s "idle")])] "a" [("percent", Val.n 5)] := by
  constructor
  · exact (C9_safe_update_merge_or_noop _ "b" _).1 (by decide)
  · exact (C9_safe_update_merge_or_noop _ "a" _).2.1 _ (by decide) (by decide)

/-! ## Progress monotonicity (claim C8)

The successive states of the task record during one run are the scan of
`stepEv` over the event list; `progressTrace` collects them, the starting
record included. -/

/-- The numeric value of key `k`, 0 when the key is absent or non-numeric
(as the progress consumers read it). -/
def natVal (rec : Rec) (k : String) : Nat :=
  match recLookup rec k with
  | some (.n v) => v
  | _ => 0

def percentAt (rec : Rec) : Nat := natVal rec "percent"

def currentAt (rec : Rec) : Nat := natVal rec "current"

def totalAt (rec : Rec) : Nat := natVal rec "total"

/-- The record after each successive event. -/
def recsAfter (rec : Rec) : List Ev → List Rec
  | [] => []
  | e :: es => stepEv rec e :: recsAfter (stepEv rec e) es

/-- The full sequence of record states over a run: the starting record
followed by the state after each event. -/
def progressTrace (rec : Rec) (evs : List Ev) : List Rec :=
  rec :: recsAfter rec evs

/-- One progress step: `percent` and `current` do not decrease. -/
def progLe (r1 r2 : Rec) : Prop :=
  percentAt r1 ≤ percentAt r2 ∧ currentAt r1 ≤ currentAt r2

/-- A run segment whose trace from `rec` is a `progLe`-chain with every
intermediate state in bounds. -/
def goodTrace (rec : Rec) (evs : List Ev) : Prop :=
  List.Chain' progLe (progressTrace rec evs) ∧
  ∀ x ∈ recsAfter rec evs, percentAt x ≤ 100 ∧ currentAt x ≤ totalAt x

theorem recsAfter_append (l1 l2 : List Ev) :
    ∀ rec, recsAfter rec (l1 ++ l2) =
      recsAfter rec l1 ++ recsAfter (foldEvs rec l1) l2 := by
  induction l1 with
  | nil => intro rec; rfl
  | cons e es ih =>
    intro rec
    show stepEv rec e :: recsAfter (stepEv rec e) (es ++ l2) = _
    rw [ih (stepEv rec e)]
    rfl

theorem progressTrace_getLast? (evs : List Ev) :
    ∀ rec, (progressTrace rec evs).getLast? = some (foldEvs rec evs) := by
  induction evs with
  | nil => intro rec; rfl
  | cons e es ih =>
    intro rec
    show (rec :: stepEv rec e :: recsAfter (stepEv rec e) es).getLast? = _
    rw [List.getLast?_cons_cons]
    exact ih (stepEv rec e)

/-- Concatenating two good segments, the second starting where the first
ends, yields a good segment. -/
theorem goodTrace_append (rec : Rec) (l1 l2 : List Ev)
    (h1 : goodTrace rec l1) (h2 : goodTrace (foldEvs rec l1) l2) :
    goodTrace rec (l1 ++ l2) := by
  obtain ⟨hc1, hb1⟩ := h1
  obtain ⟨hc2, hb2⟩ := h2
  constructor
  · show List.Chain' progLe (rec :: recsAfter rec (l1 ++ l2))
    rw [recsAfter_append]
    rw [show rec :: (recsAfter rec l1 ++ recsAfter (foldEvs rec l1) l2) =
      (rec :: recsAfter rec l1) ++ recsAfter (foldEvs rec l1) l2 from rfl]
    rw [List.chain'_append]
    refine ⟨hc1, (List.chain'_cons'.1 hc2).2, ?_⟩
    intro x hx y hy
    rw [show rec :: recsAfter rec l1 = progressTrace rec l1 from rfl,
      progressTrace_getLast?] at hx
    rw [Option.mem_def, Option.some_inj] at hx
    subst hx
    exact (List.chain'_cons'.1 hc2).1 y hy
  · intro x hx
    rw [recsAfter_append, List.mem_append] at hx
    rcases hx with hx | hx
    · exact hb1 x hx
    · exact hb2 x hx

/-- The four values a per-row update writes, read back. -/
theorem rowUpd_vals (rec : Rec) (c p e : Nat) (m : String) :
    percentAt (applyUpd rec
        [("current", .n c), ("percent", .n p), ("eta_seconds", .n e), ("message", .s m)]) = p ∧
      currentAt (applyUpd rec
        [("current", .n c), ("percent", .n p), ("eta_seconds", .n e), ("message", .s m)]) = c ∧
      totalAt (applyUpd rec
        [("current", .n c), ("percent", .n p), ("eta_seconds", .n e), ("message", .s m)]) =
        totalAt rec := by
  refine ⟨?_, ?_, ?_⟩ <;>
    simp [percentAt, currentAt, totalAt, natVal, recLookup, applyUpd, List.find?]

/-- Through one batch's rows the progress values climb from
`d, d*100/total` to `d + rows.length, (d + rows.length)*100/total`,
monotonically and within bounds. -/
theorem rowEvs_goodTrace (total : Nat) (eta : Nat → Nat) (h0 : total ≠ 0) :
    ∀ (rows : List Nat) (d : Nat) (rec : Rec),
      currentAt rec = d → percentAt rec = d * 100 / total → totalAt rec = total →
      d + rows.length ≤ total →
      goodTrace rec (rowEvs total eta rows d) ∧
        currentAt (foldEvs rec (rowEvs total eta rows d)) = d + rows.length ∧
        percentAt (foldEvs rec (rowEvs total eta rows d)) =
          (d + rows.length) * 100 / total ∧
        totalAt (foldEvs rec (rowEvs total eta rows d)) = total := by
  intro rows
  induction rows with
  | nil =>
    intro d rec hc hp ht _
    exact ⟨⟨List.chain'_singleton rec, by intro x hx; exact absurd hx (List.not_mem_nil x)⟩,
      by simpa [foldEvs] using hc, by simpa [foldEvs] using hp,
      by simpa [foldEvs] using ht⟩
  | cons r rest ih =>
    intro d rec hc hp ht hlen
    have hdt : d + 1 ≤ total := by
      have := hlen
      simp only [List.length_cons] at this
      omega
    obtain ⟨hP, hC, hT⟩ := rowUpd_vals rec (d + 1) ((d + 1) * 100 / total)
      (eta (d + 1)) (progressMsg (d + 1) total)
    have hmono : d * 100 / total ≤ (d + 1) * 100 / total :=
      Nat.div_le_div_right (Nat.mul_le_mul_right 100 (Nat.le_succ d))
    have hbound : ∀ c, c ≤ total → c * 100 / total ≤ 100 := by
      intro c hcle
      calc c * 100 / total ≤ total * 100 / total :=
            Nat.div_le_div_right (Nat.mul_le_mul_right 100 hcle)
        _ = 100 := Nat.mul_div_cancel_left 100 (Nat.pos_of_ne_zero h0)
    obtain ⟨⟨ihc, ihb⟩, ihcur, ihper, ihtot⟩ := ih (d + 1) _ hC hP
      (hT.trans ht) (by simp only [List.length_cons] at hlen; omega)
    have unfoldA : recsAfter rec (rowEvs total eta (r :: rest) d) =
        rec :: applyUpd rec
            [("current", .n (d + 1)), ("percent", .n ((d + 1) * 100 / total)),
             ("eta_seconds", .n (eta (d + 1))),
             ("message", .s (progressMsg (d + 1) total))] ::
          recsAfter (applyUpd rec
            [("current", .n (d + 1)), ("percent", .n ((d + 1) * 100 / total)),
             ("eta_seconds", .n (eta (d + 1))),
             ("message", .s (progressMsg (d + 1) total))])
            (rowEvs total eta rest (d + 1)) := rfl
    have unfoldF : foldEvs rec (rowEvs total eta (r :: rest) d) =
        foldEvs (applyUpd rec
            [("current", .n (d + 1)), ("percent", .n ((d + 1) * 100 / total)),
             ("eta_seconds", .n (eta (d + 1))),
             ("message", .s (progressMsg (d + 1) total))])
          (rowEvs total eta rest (d + 1)) := rfl
    refine ⟨⟨?_, ?_⟩, ?_, ?_, ?_⟩
    · show List.Chain' progLe (rec :: recsAfter rec (rowEvs total eta (r :: rest) d))
      rw [unfoldA, List.chain'_cons]
      refine ⟨⟨le_refl _, le_refl _⟩, ?_⟩
      rw [List.chain'_cons]
      refine ⟨⟨?_, ?_⟩, ihc⟩
      · rw [hp, hP]; exact hmono
      · rw [hc, hC]; exact Nat.le_succ d
    · intro x hx
      rw [unfoldA, List.mem_cons, List.mem_cons] at hx
      rcases hx with rfl | rfl | hx
      · exact ⟨hp ▸ hbound d (by omega), by rw [hc, ht]; omega⟩
      · exact ⟨hP ▸ hbound (d + 1) hdt, by rw [hC, hT.trans ht]; omega⟩
      · exact ihb x hx
    · rw [unfoldF, ihcur]; simp only [List.length_cons]; omega
    · rw [unfoldF, ihper]
      congr 2
      simp only [List.length_cons]
      omega
    · rw [unfoldF]
      exact ihtot

theorem percent_le_100 (total c : Nat) (h0 : total ≠ 0) (hc : c ≤ total) :
    c * 100 / total ≤ 100 :=
  calc c * 100 / total ≤ total * 100 / total :=
        Nat.div_le_div_right (Nat.mul_le_mul_right 100 hc)
    _ = 100 := Nat.mul_div_cancel_left 100 (Nat.pos_of_ne_zero h0)

theorem doneUpd_vals (rec : Rec) (t : Nat) (outName : String) :
    percentAt (applyUpd rec (doneUpd t outName)) = 100 ∧
      currentAt (applyUpd rec (doneUpd t outName)) = currentAt rec ∧
      totalAt (applyUpd rec (doneUpd t outName)) = totalAt rec := by
  refine ⟨?_, ?_, ?_⟩ <;>
    simp [percentAt, currentAt, totalAt, natVal, recLookup, applyUpd, doneUpd,
      List.find?]

theorem cancelUpd_vals (rec : Rec) :
    percentAt (applyUpd rec cancelUpd) = percentAt rec ∧
      currentAt (applyUpd rec cancelUpd) = currentAt rec ∧
      totalAt (applyUpd rec cancelUpd) = totalAt rec := by
  refine ⟨?_, ?_, ?_⟩ <;>
    simp [percentAt, currentAt, totalAt, natVal, recLookup, applyUpd, cancelUpd,
      List.find?]

/-- Through the whole batch loop the progress trace is a non-decreasing
chain within bounds, whichever boundary (if any) observes the cancel
flag. -/
theorem runBatches_goodTrace (rtr : List Nat) (total : Nat) (eta : Nat → Nat)
    (cobs : Nat → Bool) (outName : String) (hlen : rtr.length = total)
    (h0 : total ≠ 0) :
    ∀ (k bs : Nat) (rec : Rec),
      (∀ x ∈ List.range' bs k BATCH, x < total) →
      currentAt rec = min bs total →
      percentAt rec = min bs total * 100 / total →
      totalAt rec = total →
      goodTrace rec (runBatches rtr total eta cobs outName (List.range' bs k BATCH)) := by
  intro k
  induction k with
  | zero =>
    intro bs rec _ hc hp ht
    obtain ⟨hP, hC, hT⟩ := doneUpd_vals rec total outName
    constructor
    · show List.Chain' progLe [rec, applyUpd rec (doneUpd total outName)]
      rw [List.chain'_pair]
      exact ⟨by rw [hp, hP]; exact percent_le_100 total _ h0 (by omega),
        by rw [hC]⟩
    · intro x hx
      rw [show recsAfter rec (runBatches rtr total eta cobs outName (List.range' bs 0 BATCH)) =
        [applyUpd rec (doneUpd total outName)] from rfl, List.mem_singleton] at hx
      subst hx
      refine ⟨by rw [hP], ?_⟩
      rw [hC, hT, hc, ht]
      omega
  | succ k ihk =>
    intro bs rec hlt hc hp ht
    have hbs : bs < total := hlt bs (by rw [List.range'_succ]; exact List.mem_cons_self _ _)
    have hminbs : min bs total = bs := min_eq_left (le_of_lt hbs)
    rw [List.range'_succ]
    cases hcb : cobs bs with
    | true =>
      have e1 : runBatches rtr total eta cobs outName (bs :: List.range' (bs + BATCH) k BATCH) =
          [.update cancelUpd] := by simp [runBatches, hcb]
      rw [e1]
      obtain ⟨hP, hC, hT⟩ := cancelUpd_vals rec
      constructor
      · show List.Chain' progLe [rec, applyUpd rec cancelUpd]
        rw [List.chain'_pair]
        exact ⟨by rw [hP], by rw [hC]⟩
      · intro x hx
        rw [show recsAfter rec [Ev.update cancelUpd] = [applyUpd rec cancelUpd] from rfl,
          List.mem_singleton] at hx
        subst hx
        refine ⟨?_, ?_⟩
        · rw [hP, hp, hminbs]
          exact percent_le_100 total _ h0 (by omega)
        · rw [hC, hT, hc, ht]
          omega
    | false =>
      have e1 : runBatches rtr total eta cobs outName (bs :: List.range' (bs + BATCH) k BATCH) =
          rowEvs total eta ((rtr.drop bs).take BATCH) bs ++
            ([Ev.save] ++ runBatches rtr total eta cobs outName
              (List.range' (bs + BATCH) k BATCH)) := by
        simp [runBatches, hcb]
      rw [e1]
      have hrows : ((rtr.drop bs).take BATCH).length = min BATCH (total - bs) := by
        simp [List.length_take, List.length_drop, hlen]
      have hcb' : currentAt rec = bs := by rw [hc, hminbs]
      have hpb' : percentAt rec = bs * 100 / total := by rw [hp, hminbs]
      have hrlen : bs + ((rtr.drop bs).take BATCH).length ≤ total := by
        rw [hrows]; omega
      obtain ⟨hgood, hcur, hper, htot⟩ :=
        rowEvs_goodTrace total eta h0 ((rtr.drop bs).take BATCH) bs rec hcb' hpb' ht hrlen
      apply goodTrace_append rec _ _ hgood
      apply goodTrace_append _ [Ev.save] _
      · constructor
        · show List.Chain' progLe
            [foldEvs rec (rowEvs total eta ((rtr.drop bs).take BATCH) bs),
             foldEvs rec (rowEvs total eta ((rtr.drop bs).take BATCH) bs)]
          rw [List.chain'_pair]
          exact ⟨le_refl _, le_refl _⟩
        · intro x hx
          rw [show recsAfter (foldEvs rec (rowEvs total eta ((rtr.drop bs).take BATCH) bs))
              [Ev.save] = [foldEvs rec (rowEvs total eta ((rtr.drop bs).take BATCH) bs)]
              from rfl, List.mem_singleton] at hx
          subst hx
          refine ⟨?_, ?_⟩
          · rw [hper]
            exact percent_le_100 total _ h0 (by rw [hrows]; omega)
          · rw [hcur, htot]
            omega
      · have eS : foldEvs (foldEvs rec (rowEvs total eta ((rtr.drop bs).take BATCH) bs))
            [Ev.save] = foldEvs rec (rowEvs total eta ((rtr.drop bs).take BATCH) bs) := rfl
        rw [eS]
        apply ihk (bs + BATCH) _ ?_ ?_ ?_ htot
        · intro x hx
          exact hlt x (by rw [List.range'_succ]; exact List.mem_cons_of_mem _ hx)
        · rw [hcur, hrows]
          omega
        · rw [hper]
          congr 1
          rw [hrows]
          omega

/-- C8: over any run of the worker, from task creation through the terminal
update, the successive record states form a chain in which `percent` and
`current` never decrease, `percent` never exceeds 100, and `current` never
exceeds the recorded `total`. -/
theorem C8_progress_monotone (ws : Option Sheet) (eta : Nat → Nat)
    (cobs : Nat → Bool) (outName tmp_dir filename : String) :
    List.Chain' progLe
        (progressTrace (initRecord tmp_dir filename) (runEvents ws eta cobs outName)) ∧
      ∀ x ∈ progressTrace (initRecord tmp_dir filename) (runEvents ws eta cobs outName),
        percentAt x ≤ 100 ∧ currentAt x ≤ totalAt x := by
  have hinit : percentAt (initRecord tmp_dir filename) ≤ 100 ∧
      currentAt (initRecord tmp_dir filename) ≤ totalAt (initRecord tmp_dir filename) := by
    constructor <;>
      simp [percentAt, currentAt, totalAt, natVal, recLookup, initRecord, List.find?]
  have main : goodTrace (initRecord tmp_dir filename) (runEvents ws eta cobs outName) := by
    cases ws with
    | none =>
      constructor
      · show List.Chain' progLe [_, _, _]
        rw [List.chain'_cons, List.chain'_pair]
        refine ⟨?_, ?_⟩ <;> constructor <;>
          simp [percentAt, currentAt, totalAt, natVal, recLookup, applyUpd,
            initRecord, runningUpd, errorUpd, List.find?, stepEv, runEvents]
      · intro x hx
        simp only [runEvents, recsAfter, stepEv, List.mem_cons, List.not_mem_nil,
          or_false] at hx
        rcases hx with rfl | rfl <;> constructor <;>
          simp [percentAt, currentAt, totalAt, natVal, recLookup, applyUpd,
            initRecord, runningUpd, errorUpd, List.find?]
    | some s =>
      cases htc : findTitleCol s with
      | none =>
        have eE : runEvents (some s) eta cobs outName =
            [.update runningUpd, .update (errorUpd "找不到 Title 列")] := by
          simp [runEvents, htc]
        rw [eE]
        constructor
        · show List.Chain' progLe [_, _, _]
          rw [List.chain'_cons, List.chain'_pair]
          refine ⟨?_, ?_⟩ <;> constructor <;>
            simp [percentAt, currentAt, totalAt, natVal, recLookup, applyUpd,
              initRecord, runningUpd, errorUpd, List.find?, stepEv]
        · intro x hx
          simp only [recsAfter, stepEv, List.mem_cons, List.not_mem_nil,
            or_false] at hx
          rcases hx with rfl | rfl <;> constructor <;>
            simp [percentAt, currentAt, totalAt, natVal, recLookup, applyUpd,
              initRecord, runningUpd, errorUpd, List.find?]
      | some tcol =>
        by_cases h0 : (rows_to_tr s tcol).length = 0
        · have eE : runEvents (some s) eta cobs outName =
              [.update runningUpd,
               .update [("total", Val.n (rows_to_tr s tcol).length), ("current", Val.n 0)],
               .update [("status", .s "done"), ("percent", .n 100),
                        ("message", .s "无需翻译")]] := by
            simp [runEvents, htc, h0]
          rw [eE, h0]
          constructor
          · show List.Chain' progLe [_, _, _, _]
            rw [List.chain'_cons, List.chain'_cons, List.chain'_pair]
            refine ⟨?_, ?_, ?_⟩ <;> constructor <;>
              simp [percentAt, currentAt, totalAt, natVal, recLookup, applyUpd,
                initRecord, runningUpd, List.find?, stepEv]
          · intro x hx
            simp only [recsAfter, stepEv, List.mem_cons, List.not_mem_nil,
              or_false] at hx
            rcases hx with rfl | rfl | rfl <;> constructor <;>
              simp [percentAt, currentAt, totalAt, natVal, recLookup, applyUpd,
                initRecord, runningUpd, List.find?]
        · have eE : runEvents (some s) eta cobs outName =
              [.update runningUpd,
               .update [("total", Val.n (rows_to_tr s tcol).length), ("current", Val.n 0)]] ++
                runBatches (rows_to_tr s tcol) (rows_to_tr s tcol).length eta cobs
                  outName (batchStarts (rows_to_tr s tcol).length) := by
            simp [runEvents, htc, h0]
          rw [eE]
          apply goodTrace_append
          · constructor
            · show List.Chain' progLe [_, _, _]
              rw [List.chain'_cons, List.chain'_pair]
              refine ⟨?_, ?_⟩ <;> constructor <;>
                simp [percentAt, currentAt, totalAt, natVal, recLookup, applyUpd,
                  initRecord, runningUpd, List.find?, stepEv]
            · intro x hx
              simp only [recsAfter, stepEv, List.mem_cons, List.not_mem_nil,
                or_false] at hx
              rcases hx with rfl | rfl <;> constructor <;>
                simp [percentAt, currentAt, totalAt, natVal, recLookup, applyUpd,
                  initRecord, runningUpd, List.find?]
          · have hvals :
                currentAt (foldEvs (initRecord tmp_dir filename)
                  [.update runningUpd,
                   .update [("total", Val.n (rows_to_tr s tcol).length), ("current", Val.n 0)]]) = 0 ∧
                percentAt (foldEvs (initRecord tmp_dir filename)
                  [.update runningUpd,
                   .update [("total", Val.n (rows_to_tr s tcol).length), ("current", Val.n 0)]]) = 0 ∧
                totalAt (foldEvs (initRecord tmp_dir filename)
                  [.update runningUpd,
                   .update [("total", Val.n (rows_to_tr s tcol).length), ("current", Val.n 0)]]) =
                  (rows_to_tr s tcol).length := by
              refine ⟨?_, ?_, ?_⟩ <;>
                simp [percentAt, currentAt, totalAt, natVal, recLookup, applyUpd,
                  initRecord, runningUpd, List.find?, foldEvs, stepEv]
            rw [show batchStarts (rows_to_tr s tcol).length =
              List.range' 0 (((rows_to_tr s tcol).length + (BATCH - 1)) / BATCH) BATCH
              from rfl]
            apply runBatches_goodTrace (rows_to_tr s tcol) (rows_to_tr s tcol).length
              eta cobs outName rfl h0
            · intro x hx
              obtain ⟨i, hi, rfl⟩ := List.mem_range'.1 hx
              simp only [BATCH] at hi ⊢
              omega
            · rw [hvals.1]
              omega
            · rw [hvals.2.1]
              have : min 0 (rows_to_tr s tcol).length = 0 := by omega
              rw [this, Nat.zero_mul, Nat.zero_div]
            · exact hvals.2.2
  refine ⟨main.1, ?_⟩
  intro x hx
  rw [progressTrace, List.mem_cons] at hx
  rcases hx with rfl | hx
  · exact hinit
  · exact main.2 x hx

/-- C8, witnessed on a three-row sheet with one blank row. -/
theorem C8_witness :
    List.Chain' progLe
      (progressTrace (initRecord "t" "f")
        (runEvents (some ⟨[[some "Title"], [some "a"], [some " "]]⟩) (fun _ => 0)
          (fun _ => false) "o")) :=
  (C8_progress_monotone (some ⟨[[some "Title"], [some "a"], [some " "]]⟩)
    (fun _ => 0) (fun _ => false) "o" "t" "f").1

end WebTranslator
